

import Mathlib

set_option maxRecDepth 100000

/-!
Shallow embedding of the `bip32` repository (files `bip32.py` and
`bip32_helper.py`) in Lean 4, together with proofs about the embedded
functions.

Bytes are modelled as `List Nat` (each entry intended `< 256`); Python
exceptions are modelled with `Except Err`.  External collaborators
(hash primitives from `hashlib`, elliptic-curve operations from `ecc`)
are modelled as parameter structures; the properties the code relies on
(output lengths, group laws) appear as explicit hypotheses.
-/

/-- Error kinds corresponding to the exceptions the Python code can raise. -/
inductive Err where
  /-- `ValueError("Checksum mismatch!")` -/
  | checksumMismatch
  /-- `ValueError("Unsupported BIP32 Key Format")` -/
  | unsupportedFormat
  /-- `ValueError("Fingerprint mismatch!")` -/
  | fingerprintMismatch
  /-- `ValueError("Cannot use hardened index!")` -/
  | hardened
  /-- a failing `assert` statement -/
  | assertionError
  /-- `TypeError`, e.g. hashing `None` -/
  | typeError
  /-- `ValueError` from `str.index` on a character not in the alphabet -/
  | badChar
  /-- `OverflowError` from `int.to_bytes` when the integer does not fit -/
  | overflow
  /-- `ValueError` from `bytes([d])` when `d` is not in `range(0, 256)` -/
  | byteRange
  deriving DecidableEq, Repr

/-- Forgetful map used only to transport decidable equality to `Except`. -/
def exceptToSum {ε α : Type} : Except ε α → ε ⊕ α
  | .error e => .inl e
  | .ok a => .inr a

instance {ε α : Type} [DecidableEq ε] [DecidableEq α] :
    DecidableEq (Except ε α) := fun a b =>
  decidable_of_iff (exceptToSum a = exceptToSum b)
    (by cases a <;> cases b <;> simp [exceptToSum])

/-- Big-endian interpretation of a byte list, as in Python
`int.from_bytes(bs, "big")`. -/
def bytesToNat (bs : List Nat) : Nat :=
  bs.foldl (fun a b => a * 256 + b) 0

/-- Big-endian fixed-length byte encoding of a natural number, as in Python
`n.to_bytes(l, "big")` (assuming `n < 256 ^ l`). -/
def natToBytes : Nat → Nat → List Nat
  | 0, _ => []
  | l + 1, n => natToBytes l (n / 256) ++ [n % 256]

/-- Python `n.to_bytes(l, "big")` including the `OverflowError` behaviour. -/
def intToBytes (l n : Nat) : Except Err (List Nat) :=
  if n < 256 ^ l then .ok (natToBytes l n) else .error .overflow

/-- The `BASE58_ALPHABET` constant of `bip32_helper.py`. -/
def B58 : List Char :=
  "123456789ABCDEFGHJKLMNPQRSTUVWXYZabcdefghijkmnopqrstuvwxyz".toList

/-- Position of a character in a character list, as in Python `str.index`
(`none` models the `ValueError` on a missing character). -/
def findChar (ch : Char) : List Char → Option Nat
  | [] => none
  | c :: cs => if c = ch then some 0 else (findChar ch cs).map (· + 1)

/-- The loop of `decode_base58`: `num = num * 58 + BASE58_ALPHABET.index(char)`
over the characters, starting from an accumulator. -/
def decodeNum (n : Nat) : List Char → Except Err Nat
  | [] => .ok n
  | c :: cs =>
    match findChar c B58 with
    | some i => decodeNum (n * 58 + i) cs
    | none => .error .badChar

/-- The function `decode_base58` of `bip32_helper.py`: fold the alphabet
positions into a number, then `num.to_bytes(82, "big")`. -/
def decode_base58 (s : List Char) : Except Err (List Nat) := do
  let num ← decodeNum 0 s
  intToBytes 82 num

/-- Leading-zero-byte count computed by the first loop of `encode_base58`. -/
def countLeadingZeros : List Nat → Nat
  | [] => 0
  | b :: bs => if b = 0 then countLeadingZeros bs + 1 else 0

/-- Fuelled form of the digit loop of `encode_base58` (the fuel makes the
recursion structural; `encBody` instantiates the fuel adequately). -/
def encBodyAux : Nat → Nat → List Char
  | 0, _ => []
  | fuel + 1, n =>
    if n = 0 then [] else encBodyAux fuel (n / 58) ++ [B58.getD (n % 58) 'x']

/-- The digit loop of `encode_base58`: repeatedly `divmod` by 58, prepending
`BASE58_ALPHABET[mod]`; most significant digit first. -/
def encBody (n : Nat) : List Char :=
  encBodyAux n n

/-- The function `encode_base58` of `bip32_helper.py`. -/
def encode_base58 (data : List Nat) : List Char :=
  List.replicate (countLeadingZeros data) '1' ++ encBody (bytesToNat data)

/-- External hash primitives used by the repository (SHA-256 based helpers and
HMAC-SHA512 from `hashlib`/`hmac`, plus `get_pubkey_sec` which wraps the
`ecc` library's private-to-public conversion).  They are collaborators of the
code under verification, so they are kept abstract. -/
structure HashFns where
  hmac_sha512 : List Nat → List Nat → List Nat
  hash160 : List Nat → List Nat
  hash256 : List Nat → List Nat
  get_pubkey_sec : List Nat → List Nat

/-- The function `encode_base58_checksum` of `bip32_helper.py`. -/
def encode_base58_checksum (H : HashFns) (data : List Nat) : List Char :=
  encode_base58 (data ++ (H.hash256 data).take 4)

/-- The `Xkey` node of `bip32.py`: key material, chain code, the
private/public and root tags, tree position, and the optional parent public
key. -/
structure Xkey where
  key : List Nat
  chaincode : List Nat
  private_key : Bool
  root : Bool
  depth : Nat
  index : Nat
  parent_pubkey : Option (List Nat)
  deriving DecidableEq, Repr

/-- The constructor `Xkey.__init__`: for a non-root node it asserts
`depth != 0` and `parent_pubkey is not None` (in that order); a failing
assertion raises, so no node is produced. -/
def Xkey.make (key chaincode : List Nat) (private_key : Bool) (root : Bool)
    (depth index : Nat) (parent_pubkey : Option (List Nat)) :
    Except Err Xkey :=
  if root then
    .ok ⟨key, chaincode, private_key, root, depth, index, parent_pubkey⟩
  else if depth = 0 then .error .assertionError
  else if parent_pubkey = none then .error .assertionError
  else .ok ⟨key, chaincode, private_key, root, depth, index, parent_pubkey⟩

/-- Order of the secp256k1 group: the constant `N` that `bip32.py` imports
from the external `ecc` library. -/
def Ncurve : Nat :=
  115792089237316195423570985008687907852837564279074904382605163141518161494337

/-- Abstract elliptic-curve operations of the external `ecc` library:
`S256Point.parse`, point addition, scalar multiplication of the base point
`G`, and SEC serialization. -/
structure ECGroup where
  Pt : Type
  ptAdd : Pt → Pt → Pt
  smulG : Nat → Pt
  sec : Pt → List Nat
  ptParse : List Nat → Pt

/-- The method `Xkey.serialize`: version tag by variant, then either the
all-zero depth/fingerprint/index block (root) or the stored
depth/fingerprint/index (non-root), then chain code and key field, all
Base58Check-encoded. -/
def Xkey.serialize (H : HashFns) (x : Xkey) : Except Err (List Char) := do
  let version : List Nat :=
    if x.private_key then [4, 136, 173, 228] else [4, 136, 178, 30]
  let middle ←
    if x.root then
      pure (([0] ++ List.replicate 4 0) ++ List.replicate 4 0)
    else do
      let depthByte ← if x.depth < 256 then pure [x.depth]
        else Except.error Err.byteRange
      let fp ← match x.parent_pubkey with
        | none => Except.error Err.typeError
        | some pk => pure ((H.hash160 pk).take 4)
      let idx ← intToBytes 4 x.index
      pure ((depthByte ++ fp) ++ idx)
  let keyField : List Nat := if x.private_key then 0 :: x.key else x.key
  pure (encode_base58_checksum H (((version ++ middle) ++ x.chaincode) ++ keyField))

/-- The classmethod `Xkey.parse_from_bip32`: Base58-decode, checksum check,
version check, root detection or fingerprint check, then construction. -/
def Xkey.parse_from_bip32 (H : HashFns) (s : List Char)
    (parent_pubkey : Option (List Nat)) : Except Err Xkey := do
  let decoded ← decode_base58 s
  let checksum := decoded.drop (decoded.length - 4)
  let payload := decoded.take (decoded.length - 4)
  if checksum ≠ (H.hash256 payload).take 4 then throw Err.checksumMismatch
  let version := payload.take 4
  let private_key ←
    if version = [4, 136, 173, 228] then pure true
    else if version = [4, 136, 178, 30] then pure false
    else throw Err.unsupportedFormat
  let depth := payload.getD 4 0
  let fingerprint := (payload.drop 5).take 4
  let index := bytesToNat ((payload.drop 9).take 4)
  let root ←
    if depth = 0 ∧ fingerprint = List.replicate 4 0 ∧ index = 0 then pure true
    else match parent_pubkey with
      | none => throw Err.typeError
      | some pk =>
        if (H.hash160 pk).take 4 ≠ fingerprint then throw Err.fingerprintMismatch
        else pure false
  let chaincode := (payload.drop 13).take 32
  let keyField := (payload.drop 45).take 33
  let key := if keyField.getD 0 0 = 0 then keyField.drop 1 else keyField
  Xkey.make key chaincode private_key root depth index parent_pubkey

/-- The method `Xkey.derive_child_seed`: build the HMAC input by variant and
hardening, split the HMAC-SHA512 output, combine keys (modular addition for a
private parent, point addition for a public parent), and construct the child. -/
def Xkey.derive_child_seed (H : HashFns) (E : ECGroup) (x : Xkey)
    (index_num : Nat) : Except Err Xkey := do
  let pd ←
    if x.private_key then do
      let pubkey := H.get_pubkey_sec x.key
      if index_num ≥ 2 ^ 31 then do
        let ib ← intToBytes 4 index_num
        pure (pubkey, ([0] ++ x.key) ++ ib)
      else do
        let ib ← intToBytes 4 index_num
        pure (pubkey, pubkey ++ ib)
    else do
      let pubkey := x.key
      if index_num ≥ 2 ^ 31 then throw Err.hardened
      else do
        let ib ← intToBytes 4 index_num
        pure (pubkey, pubkey ++ ib)
  let full_node := H.hmac_sha512 x.chaincode pd.2
  let left_node := full_node.take 32
  let right_node := full_node.drop 32
  let left_node_num := bytesToNat left_node
  let key_num := bytesToNat x.key
  let key ←
    if x.private_key then
      intToBytes 32 ((key_num + left_node_num) % Ncurve)
    else
      pure (E.sec (E.ptAdd (E.ptParse x.key) (E.smulG left_node_num)))
  let depth := if x.root then 1 else x.depth + 1
  Xkey.make key right_node x.private_key false depth index_num (some pd.1)

/-- The method `Xkey.derive_path`: the loop over `(index, hardened)` pairs,
adding `2 ^ 31` to hardened indices and chaining `derive_child_seed`. -/
def Xkey.derive_path (H : HashFns) (E : ECGroup) (x : Xkey) :
    List (Nat × Bool) → Except Err Xkey
  | [] => .ok x
  | step :: rest => do
    let idx := if step.2 then step.1 + 2 ^ 31 else step.1
    let child ← x.derive_child_seed H E idx
    child.derive_path H E rest

/-- The method `Xkey.derive_pubkey`: assert the node is private, then rebuild
it with the SEC public key and `private_key = False`, keeping every other
field. -/
def Xkey.derive_pubkey (H : HashFns) (x : Xkey) : Except Err Xkey := do
  if x.private_key = false then throw Err.assertionError
  Xkey.make (H.get_pubkey_sec x.key) x.chaincode false x.root x.depth x.index
    x.parent_pubkey

/-- Contract the repository relies on for the external hash helpers: both
`hash256` and `hash160` return byte strings of the documented lengths. -/
def HashFns.hashContract (H : HashFns) : Prop :=
  (∀ b, (H.hash256 b).length = 32 ∧ ∀ y ∈ H.hash256 b, y < 256) ∧
  (∀ b, (H.hash160 b).length = 20 ∧ ∀ y ∈ H.hash160 b, y < 256)

/-- A well-formed `Xkey` node, per the data-model invariants of the code: a
32-byte chain code and key material made of bytes, a 32-byte private key or a
33-byte SEC public key (whose leading parity byte is nonzero), a depth that
fits one byte and an index that fits four, and coherent root/parent fields. -/
def Xkey.Valid (x : Xkey) : Prop :=
  x.chaincode.length = 32 ∧ (∀ b ∈ x.chaincode, b < 256) ∧
  (∀ b ∈ x.key, b < 256) ∧
  (x.private_key = true → x.key.length = 32) ∧
  (x.private_key = false → x.key.length = 33 ∧ x.key.getD 0 0 ≠ 0) ∧
  x.depth < 256 ∧ x.index < 2 ^ 32 ∧
  (x.root = true → x.depth = 0 ∧ x.index = 0 ∧ x.parent_pubkey = none) ∧
  (x.root = false → x.depth ≠ 0 ∧ x.parent_pubkey ≠ none)

/-- The tail of `parse_from_bip32` after the checksum check, as a function of
the 78-byte payload (proof-structuring device; `parse_unfold` shows
`Xkey.parse_from_bip32` is definitionally the checksum check followed by
this). -/
def parseCore (H : HashFns) (payload : List Nat)
    (parent_pubkey : Option (List Nat)) : Except Err Xkey := do
  let version := payload.take 4
  let private_key ←
    if version = [4, 136, 173, 228] then pure true
    else if version = [4, 136, 178, 30] then pure false
    else throw Err.unsupportedFormat
  let depth := payload.getD 4 0
  let fingerprint := (payload.drop 5).take 4
  let index := bytesToNat ((payload.drop 9).take 4)
  let root ←
    if depth = 0 ∧ fingerprint = List.replicate 4 0 ∧ index = 0 then pure true
    else match parent_pubkey with
      | none => throw Err.typeError
      | some pk =>
        if (H.hash160 pk).take 4 ≠ fingerprint then throw Err.fingerprintMismatch
        else pure false
  let chaincode := (payload.drop 13).take 32
  let keyField := (payload.drop 45).take 33
  let key := if keyField.getD 0 0 = 0 then keyField.drop 1 else keyField
  Xkey.make key chaincode private_key root depth index parent_pubkey

/-- Contract the repository relies on for the external `ecc` library:
`S256Point.parse` inverts SEC serialization, scalar multiples of `G` add like
their scalars, scalars act modulo the group order, and `get_pubkey_sec`
serializes the scalar multiple of `G`. -/
def ECGroup.lawful (E : ECGroup) (H : HashFns) : Prop :=
  (∀ p, E.ptParse (E.sec p) = p) ∧
  (∀ a b, E.ptAdd (E.smulG a) (E.smulG b) = E.smulG (a + b)) ∧
  (∀ a, E.smulG (a % Ncurve) = E.smulG a) ∧
  (∀ bs, H.get_pubkey_sec bs = E.sec (E.smulG (bytesToNat bs)))

/-- A concrete model of the secp256k1 group contract: points are residues
modulo the group order, the base-point multiples are the residues themselves,
and SEC serialization is the 33-byte big-endian value. -/
def finEC : ECGroup :=
  ⟨Fin Ncurve,
   fun p q => ⟨(p.val + q.val) % Ncurve, Nat.mod_lt _ (by norm_num [Ncurve])⟩,
   fun a => ⟨a % Ncurve, Nat.mod_lt _ (by norm_num [Ncurve])⟩,
   fun p => natToBytes 33 p.val,
   fun bs => ⟨bytesToNat bs % Ncurve, Nat.mod_lt _ (by norm_num [Ncurve])⟩⟩

/-- Concrete instantiation of the hash collaborators used to witness the
theorems on concrete inputs. -/
def testHash : HashFns :=
  ⟨fun _ _ => List.replicate 64 1, fun _ => List.replicate 20 9,
   fun _ => List.replicate 32 7,
   fun bs => natToBytes 33 (bytesToNat bs % Ncurve)⟩

def sampleRoot : Xkey :=
  ⟨List.replicate 32 3, List.replicate 32 4, true, true, 0, 0, none⟩

def samplePub : Xkey :=
  ⟨2 :: List.replicate 32 5, List.replicate 32 4, false, true, 0, 0, none⟩

def sampleChild : Xkey :=
  ⟨List.replicate 32 8, List.replicate 32 9, true, false, 1, 5, some [2]⟩

/-- Payload of a serialized private root key (version, zero
depth/fingerprint/index, chain code, key field) used in concrete parsing
statements. -/
def rootPayload : List Nat :=
  (([4, 136, 173, 228] ++ (([0] ++ List.replicate 4 0) ++ List.replicate 4 0)) ++
    List.replicate 32 11) ++ (0 :: List.replicate 32 3)

/-- Payload of a serialized non-root private key (depth 1) used in concrete
parsing statements. -/
def childPayload : List Nat :=
  (([4, 136, 173, 228] ++ (([1] ++ List.replicate 4 9) ++ List.replicate 4 0)) ++
    List.replicate 32 11) ++ (0 :: List.replicate 32 3)

/-- C6 counterexample: parsing the same root-form encoded key with two
different `parent_pubkey` arguments yields two different nodes, so the parse
result is not independent of the supplied parent public key. -/

lemma foldl_bytes (bs : List Nat) (a : Nat) :
    bs.foldl (fun x b => x * 256 + b) a = a * 256 ^ bs.length + bytesToNat bs := by
  induction bs generalizing a with
  | nil => simp [bytesToNat]
  | cons b bs ih =>
    show List.foldl _ (a * 256 + b) bs = _
    rw [ih (a * 256 + b)]
    have hb : bytesToNat (b :: bs) = b * 256 ^ bs.length + bytesToNat bs := by
      show List.foldl _ (0 * 256 + b) bs = _
      rw [ih (0 * 256 + b)]
      ring
    rw [hb]
    simp [List.length_cons]
    ring

lemma bytesToNat_append (xs ys : List Nat) :
    bytesToNat (xs ++ ys) = bytesToNat xs * 256 ^ ys.length + bytesToNat ys := by
  unfold bytesToNat
  rw [List.foldl_append]
  exact foldl_bytes ys _

lemma natToBytes_length (l n : Nat) : (natToBytes l n).length = l := by
  induction l generalizing n with
  | zero => simp [natToBytes]
  | succ l ih => simp [natToBytes, ih]

lemma bytesToNat_natToBytes (l n : Nat) (h : n < 256 ^ l) :
    bytesToNat (natToBytes l n) = n := by
  induction l generalizing n with
  | zero =>
    interval_cases n
    simp [natToBytes, bytesToNat]
  | succ l ih =>
    rw [natToBytes, bytesToNat_append]
    have hd : n / 256 < 256 ^ l := by
      rw [Nat.div_lt_iff_lt_mul (by omega : 0 < 256)]
      calc n < 256 ^ (l + 1) := h
        _ = 256 ^ l * 256 := by ring
    rw [ih _ hd]
    have : bytesToNat [n % 256] = n % 256 := by simp [bytesToNat]
    rw [this]
    simp
    omega

lemma natToBytes_bytesToNat (bs : List Nat) (hb : ∀ b ∈ bs, b < 256) :
    natToBytes bs.length (bytesToNat bs) = bs := by
  induction bs using List.reverseRecOn with
  | nil => simp [natToBytes, bytesToNat]
  | append_singleton xs b ih =>
    have hblt : b < 256 := hb b (by simp)
    have hxs : ∀ y ∈ xs, y < 256 := fun y hy => hb y (by simp [hy])
    rw [bytesToNat_append]
    have hlen : (xs ++ [b]).length = xs.length + 1 := by simp
    rw [hlen, natToBytes]
    have h1 : bytesToNat [b] = b := by simp [bytesToNat]
    rw [h1]
    have hpow : (List.length [b] : Nat) = 1 := by simp
    have hdiv : (bytesToNat xs * 256 ^ ([b] : List Nat).length + b) / 256 = bytesToNat xs := by
      simp
      omega
    have hmod : (bytesToNat xs * 256 ^ ([b] : List Nat).length + b) % 256 = b := by
      simp
      omega
    rw [hdiv, hmod, ih hxs]

lemma bytesToNat_lt (bs : List Nat) (hb : ∀ b ∈ bs, b < 256) :
    bytesToNat bs < 256 ^ bs.length := by
  induction bs using List.reverseRecOn with
  | nil => simp [bytesToNat]
  | append_singleton xs b ih =>
    have hblt : b < 256 := hb b (by simp)
    have hxs : ∀ y ∈ xs, y < 256 := fun y hy => hb y (by simp [hy])
    rw [bytesToNat_append]
    have h1 : bytesToNat [b] = b := by simp [bytesToNat]
    have := ih hxs
    simp [h1]
    calc bytesToNat xs * 256 + b < (bytesToNat xs + 1) * 256 := by omega
      _ ≤ 256 ^ xs.length * 256 := by
          have : bytesToNat xs + 1 ≤ 256 ^ xs.length := this
          exact Nat.mul_le_mul_right 256 this
      _ = 256 ^ (xs.length + 1) := by ring

lemma decodeNum_append (xs ys : List Char) (a m : Nat)
    (h : decodeNum a xs = .ok m) :
    decodeNum a (xs ++ ys) = decodeNum m ys := by
  induction xs generalizing a with
  | nil =>
    simp [decodeNum] at h
    subst h
    rfl
  | cons c cs ih =>
    rw [List.cons_append]
    cases hf : findChar c B58 with
    | some i =>
      have hstep : ∀ ws, decodeNum a (c :: ws) = decodeNum (a * 58 + i) ws := by
        intro ws
        simp [decodeNum, hf]
      rw [hstep]
      rw [hstep cs] at h
      exact ih _ h
    | none =>
      have hbad : decodeNum a (c :: cs) = .error .badChar := by
        simp [decodeNum, hf]
      rw [hbad] at h
      exact absurd h (by simp)

lemma decodeNum_ones (k : Nat) :
    decodeNum 0 (List.replicate k '1') = .ok 0 := by
  induction k with
  | zero => rfl
  | succ k ih =>
    rw [List.replicate_succ]
    unfold decodeNum
    have h1 : findChar '1' B58 = some 0 := by decide
    rw [h1]
    simpa using ih

lemma b58_findChar_getD : ∀ m : Fin 58, findChar (B58.getD m.val 'x') B58 = some m.val := by
  decide

lemma b58_mod (n : Nat) : findChar (B58.getD (n % 58) 'x') B58 = some (n % 58) :=
  b58_findChar_getD ⟨n % 58, Nat.mod_lt _ (by omega)⟩

lemma encBodyAux_zero (f : Nat) : encBodyAux f 0 = [] := by
  cases f <;> simp [encBodyAux]

lemma encBodyAux_fuel (f₁ : Nat) : ∀ f₂ n, n ≤ f₁ → n ≤ f₂ →
    encBodyAux f₁ n = encBodyAux f₂ n := by
  induction f₁ with
  | zero =>
    intro f₂ n h1 _
    have hn : n = 0 := by omega
    subst hn
    rw [encBodyAux_zero, encBodyAux_zero]
  | succ g ih =>
    intro f₂ n h1 h2
    by_cases hn : n = 0
    · subst hn
      rw [encBodyAux_zero, encBodyAux_zero]
    · cases f₂ with
      | zero => omega
      | succ g₂ =>
        have hdiv : n / 58 < n := Nat.div_lt_self (by omega) (by omega)
        simp only [encBodyAux, if_neg hn]
        rw [ih g₂ (n / 58) (by omega) (by omega)]

lemma encBody_eq (n : Nat) :
    encBody n = if n = 0 then [] else encBody (n / 58) ++ [B58.getD (n % 58) 'x'] := by
  by_cases hn : n = 0
  · subst hn
    rfl
  · rw [if_neg hn]
    unfold encBody
    cases n with
    | zero => exact absurd rfl hn
    | succ m =>
      simp only [encBodyAux, if_neg hn]
      have hdiv : (m + 1) / 58 < m + 1 := Nat.div_lt_self (by omega) (by omega)
      rw [encBodyAux_fuel m ((m + 1) / 58) ((m + 1) / 58) (by omega) (by omega)]

lemma decode_encBody (n : Nat) : ∀ a,
    decodeNum a (encBody n) = .ok (a * 58 ^ (encBody n).length + n) := by
  induction n using Nat.strong_induction_on with
  | _ n ih =>
    intro a
    by_cases hn : n = 0
    · subst hn
      simp [encBody, encBodyAux, decodeNum]
    · rw [encBody_eq, if_neg hn]
      have hdiv : n / 58 < n := Nat.div_lt_self (by omega) (by omega)
      have hd := ih (n / 58) hdiv a
      rw [decodeNum_append _ _ _ _ hd]
      have hone : ∀ v : Nat, decodeNum v [B58.getD (n % 58) 'x'] =
          .ok (v * 58 + n % 58) := by
        intro v
        show (match findChar (B58.getD (n % 58) 'x') B58 with
          | some i => decodeNum (v * 58 + i) []
          | none => Except.error Err.badChar) = _
        rw [b58_mod]
        rfl
      rw [hone]
      congr 1
      simp only [List.length_append, List.length_singleton]
      rw [pow_succ, ← mul_assoc]
      generalize a * 58 ^ (encBody (n / 58)).length = u
      omega

lemma decode_encode_base58 (bs : List Nat) (hlen : bs.length = 82)
    (hb : ∀ b ∈ bs, b < 256) :
    decode_base58 (encode_base58 bs) = .ok bs := by
  have h2 : decodeNum 0 (List.replicate (countLeadingZeros bs) '1' ++
      encBody (bytesToNat bs)) = .ok (bytesToNat bs) := by
    rw [decodeNum_append _ _ _ _ (decodeNum_ones _), decode_encBody]
    simp
  have hlt : bytesToNat bs < 256 ^ 82 := by
    have := bytesToNat_lt bs hb
    rwa [hlen] at this
  have h3 : natToBytes 82 (bytesToNat bs) = bs := by
    have := natToBytes_bytesToNat bs hb
    rwa [hlen] at this
  simp only [decode_base58, encode_base58]
  rw [h2]
  show (if bytesToNat bs < 256 ^ 82 then
      Except.ok (natToBytes 82 (bytesToNat bs))
    else Except.error Err.overflow) = Except.ok bs
  rw [if_pos hlt, h3]

lemma natToBytes_bytes_lt (l n : Nat) : ∀ b ∈ natToBytes l n, b < 256 := by
  induction l generalizing n with
  | zero => simp [natToBytes]
  | succ l ih =>
    intro b hb
    rw [natToBytes] at hb
    rcases List.mem_append.mp hb with h | h
    · exact ih _ b h
    · simp at h
      omega

/-- Contract the repository relies on for the external hash helpers: both
`hash256` and `hash160` return byte strings of the documented lengths. -/

lemma payload_fields (v m cc kf : List Nat) (hv : v.length = 4)
    (hm : m.length = 9) (hcc : cc.length = 32) (hkf : kf.length = 33) :
    (((v ++ m) ++ cc) ++ kf).take 4 = v ∧
    (((v ++ m) ++ cc) ++ kf).getD 4 0 = m.getD 0 0 ∧
    ((((v ++ m) ++ cc) ++ kf).drop 5).take 4 = (m.drop 1).take 4 ∧
    ((((v ++ m) ++ cc) ++ kf).drop 9).take 4 = (m.drop 5).take 4 ∧
    ((((v ++ m) ++ cc) ++ kf).drop 13).take 32 = cc ∧
    ((((v ++ m) ++ cc) ++ kf).drop 45).take 33 = kf ∧
    (((v ++ m) ++ cc) ++ kf).length = 78 := by
  have hassoc : ((v ++ m) ++ cc) ++ kf = v ++ (m ++ (cc ++ kf)) := by
    simp [List.append_assoc]
  rw [hassoc]
  refine ⟨?_, ?_, ?_, ?_, ?_, ?_, ?_⟩
  · exact List.take_left' hv
  · rw [List.getD_append_right _ _ _ _ (by omega : v.length ≤ 4)]
    rw [hv]
    exact List.getD_append _ _ _ _ (by omega)
  · have h5 : (v ++ (m ++ (cc ++ kf))).drop 5 = (m ++ (cc ++ kf)).drop 1 := by
      have h : (v ++ (m ++ (cc ++ kf))).drop (v.length + 1) =
          (m ++ (cc ++ kf)).drop 1 := List.drop_append 1
      rwa [hv] at h
    rw [h5, List.drop_append_of_le_length (by omega)]
    rw [List.take_append_of_le_length (by simp [hm])]
  · have h9 : (v ++ (m ++ (cc ++ kf))).drop 9 = (m ++ (cc ++ kf)).drop 5 := by
      have h : (v ++ (m ++ (cc ++ kf))).drop (v.length + 5) =
          (m ++ (cc ++ kf)).drop 5 := List.drop_append 5
      rwa [hv] at h
    rw [h9, List.drop_append_of_le_length (by omega)]
    rw [List.take_append_of_le_length (by simp [hm])]
  · have h13 : (v ++ (m ++ (cc ++ kf))).drop 13 = (cc ++ kf).drop 0 := by
      have h : (v ++ (m ++ (cc ++ kf))).drop (v.length + 9) =
          (m ++ (cc ++ kf)).drop 9 := List.drop_append 9
      rw [hv] at h
      have h' : (m ++ (cc ++ kf)).drop (m.length + 0) =
          (cc ++ kf).drop 0 := List.drop_append 0
      rw [hm] at h'
      rw [h, h']
    rw [h13, List.drop_zero]
    exact List.take_left' hcc
  · have h45 : (v ++ (m ++ (cc ++ kf))).drop 45 = kf.drop 0 := by
      have h : (v ++ (m ++ (cc ++ kf))).drop (v.length + 41) =
          (m ++ (cc ++ kf)).drop 41 := List.drop_append 41
      rw [hv] at h
      have h' : (m ++ (cc ++ kf)).drop (m.length + 32) =
          (cc ++ kf).drop 32 := List.drop_append 32
      rw [hm] at h'
      have h'' : (cc ++ kf).drop (cc.length + 0) = kf.drop 0 :=
        List.drop_append 0
      rw [hcc] at h''
      rw [h, h', h'']
    rw [h45, List.drop_zero]
    exact List.take_of_length_le (by omega)
  · simp [hv, hm, hcc, hkf]

lemma serialize_root (H : HashFns) (x : Xkey) (hr : x.root = true) :
    x.serialize H = .ok (encode_base58_checksum H
      ((((if x.private_key then [4, 136, 173, 228] else [4, 136, 178, 30]) ++
        (([0] ++ List.replicate 4 0) ++ List.replicate 4 0)) ++ x.chaincode) ++
        (if x.private_key then 0 :: x.key else x.key))) := by
  simp [Xkey.serialize, hr]
  rfl

lemma serialize_nonroot (H : HashFns) (x : Xkey) (hr : x.root = false)
    (pk : List Nat) (hpk : x.parent_pubkey = some pk) (hd : x.depth < 256)
    (hi : x.index < 2 ^ 32) :
    x.serialize H = .ok (encode_base58_checksum H
      ((((if x.private_key then [4, 136, 173, 228] else [4, 136, 178, 30]) ++
        (([x.depth] ++ (H.hash160 pk).take 4) ++ natToBytes 4 x.index)) ++
        x.chaincode) ++
        (if x.private_key then 0 :: x.key else x.key))) := by
  have hi' : x.index < 256 ^ 4 := by norm_num at hi ⊢; omega
  have hi2 : x.index < 4294967296 := by norm_num at hi; exact hi
  simp [Xkey.serialize, hr, hpk, if_pos hd, intToBytes, hi']
  rw [if_pos hi2]
  rfl

lemma decode_encode_checksum (H : HashFns) (hH : H.hashContract)
    (p : List Nat) (hlen : p.length = 78) (hb : ∀ b ∈ p, b < 256) :
    decode_base58 (encode_base58_checksum H p) =
      .ok (p ++ (H.hash256 p).take 4) := by
  apply decode_encode_base58
  · have h32 := (hH.1 p).1
    simp [hlen, List.length_take, h32]
  · intro b hb'
    rcases List.mem_append.mp hb' with h | h
    · exact hb b h
    · exact (hH.1 p).2 b (List.mem_of_mem_take h)

lemma ok_bind {ε α β : Type} (a : α) (f : α → Except ε β) :
    (Except.ok a : Except ε α) >>= f = f a := rfl

lemma error_bind {ε α β : Type} (e : ε) (f : α → Except ε β) :
    (Except.error e : Except ε α) >>= f = Except.error e := rfl

/-- The tail of `parse_from_bip32` after the checksum check, as a function of
the 78-byte payload (proof-structuring device; `parse_unfold` shows
`Xkey.parse_from_bip32` is definitionally the checksum check followed by
this). -/

lemma parse_unfold (H : HashFns) (s : List Char) (pp : Option (List Nat)) :
    Xkey.parse_from_bip32 H s pp =
      (do
        let decoded ← decode_base58 s
        let checksum := decoded.drop (decoded.length - 4)
        let payload := decoded.take (decoded.length - 4)
        if checksum ≠ (H.hash256 payload).take 4 then throw Err.checksumMismatch
        parseCore H payload pp) := by
  rfl

lemma parse_payload (H : HashFns) (hH : H.hashContract) (p : List Nat)
    (hlen : p.length = 78) (hb : ∀ b ∈ p, b < 256) (pp : Option (List Nat)) :
    Xkey.parse_from_bip32 H (encode_base58_checksum H p) pp =
      parseCore H p pp := by
  rw [parse_unfold, decode_encode_checksum H hH p hlen hb]
  have hdlen : (p ++ (H.hash256 p).take 4).length = 82 := by
    have h32 := (hH.1 p).1
    simp [hlen, List.length_take, h32]
  have htk : (p ++ (H.hash256 p).take 4).take 78 = p := List.take_left' hlen
  have hdp : (p ++ (H.hash256 p).take 4).drop 78 = (H.hash256 p).take 4 :=
    List.drop_left' hlen
  simp only [ok_bind, hdlen]
  norm_num
  rw [htk, hdp]
  simp

lemma bind_ok_eval {ε α β : Type} (a : α) (f : α → Except ε β) :
    Except.bind (Except.ok a) f = f a := rfl

lemma Xkey.ext' (a b : Xkey) (h1 : a.key = b.key) (h2 : a.chaincode = b.chaincode)
    (h3 : a.private_key = b.private_key) (h4 : a.root = b.root)
    (h5 : a.depth = b.depth) (h6 : a.index = b.index)
    (h7 : a.parent_pubkey = b.parent_pubkey) : a = b := by
  cases a
  cases b
  simp_all

lemma parseCore_eval (H : HashFns) (v m cc kf : List Nat)
    (pp : Option (List Nat)) (hv4 : v.length = 4) (hm : m.length = 9)
    (hcc : cc.length = 32) (hkf : kf.length = 33) :
    parseCore H (((v ++ m) ++ cc) ++ kf) pp =
      (do
        let private_key ←
          if v = [4, 136, 173, 228] then pure true
          else if v = [4, 136, 178, 30] then pure false
          else throw Err.unsupportedFormat
        let root ←
          if m.getD 0 0 = 0 ∧ (m.drop 1).take 4 = List.replicate 4 0 ∧
              bytesToNat ((m.drop 5).take 4) = 0 then pure true
          else match pp with
            | none => throw Err.typeError
            | some pk =>
              if (H.hash160 pk).take 4 ≠ (m.drop 1).take 4 then
                throw Err.fingerprintMismatch
              else pure false
        Xkey.make (if kf.getD 0 0 = 0 then kf.drop 1 else kf) cc private_key
          root (m.getD 0 0) (bytesToNat ((m.drop 5).take 4)) pp) := by
  obtain ⟨h1, h2, h3, h4, h5, h6, _⟩ := payload_fields v m cc kf hv4 hm hcc hkf
  simp only [parseCore, h1, h2, h3, h4, h5, h6]

/-- C1: for every valid `Xkey` node (root or non-root, private or public),
parsing the serialized form with the node's own parent public key returns a
node structurally equal to the original:
`parse(serialize(x), x.parent_public_key) == x`. -/
theorem c1_parse_serialize_inverse (H : HashFns) (hH : H.hashContract)
    (x : Xkey) (hx : x.Valid) :
    (x.serialize H).bind
      (fun s => Xkey.parse_from_bip32 H s x.parent_pubkey) = .ok x := by
  obtain ⟨hcc, hccb, hkb, hprivlen, hpublen, hdep, hidx, hroot, hnonroot⟩ := hx
  cases hr : x.root with
  | true =>
    obtain ⟨hd0, hi0, hppn⟩ := hroot hr
    rw [serialize_root H x hr, bind_ok_eval]
    have e1 : (([0] ++ List.replicate 4 0) ++ List.replicate 4 0 : List Nat).getD 0 0 = 0 := by
      decide
    have e2 : ((([0] ++ List.replicate 4 0) ++ List.replicate 4 0 : List Nat).drop 1).take 4 =
        List.replicate 4 0 := by decide
    have e3 : bytesToNat (((([0] ++ List.replicate 4 0) ++ List.replicate 4 0 :
        List Nat).drop 5).take 4) = 0 := by decide
    cases hp : x.private_key with
    | true =>
      have hkl : x.key.length = 32 := hprivlen hp
      rw [show (if true = true then ([4, 136, 173, 228] : List Nat)
          else [4, 136, 178, 30]) = [4, 136, 173, 228] from rfl,
        show (if true = true then 0 :: x.key else x.key) = 0 :: x.key from rfl]
      have hplen : ((([4, 136, 173, 228] ++ (([0] ++ List.replicate 4 0) ++
          List.replicate 4 0)) ++ x.chaincode) ++ (0 :: x.key)).length = 78 := by
        simp [hcc, hkl]
      have hpb : ∀ b ∈ (([4, 136, 173, 228] ++ (([0] ++ List.replicate 4 0) ++
          List.replicate 4 0)) ++ x.chaincode) ++ (0 :: x.key), b < 256 := by
        intro b hb
        rcases List.mem_append.mp hb with hb | hb
        · rcases List.mem_append.mp hb with hb | hb
          · rcases List.mem_append.mp hb with hb | hb
            · fin_cases hb <;> omega
            · simp [List.mem_replicate] at hb
              omega
          · exact hccb b hb
        · rcases List.mem_cons.mp hb with hb | hb
          · omega
          · exact hkb b hb
      rw [parse_payload H hH _ hplen hpb x.parent_pubkey]
      rw [parseCore_eval H [4, 136, 173, 228]
        (([0] ++ List.replicate 4 0) ++ List.replicate 4 0) x.chaincode
        (0 :: x.key) x.parent_pubkey (by decide) (by decide) hcc (by simp [hkl])]
      rw [e1, e2, e3]
      simp [Xkey.make, hppn]
      exact Xkey.ext' _ _ rfl rfl hp.symm hr.symm hd0.symm hi0.symm hppn.symm
    | false =>
      have hkl : x.key.length = 33 := (hpublen hp).1
      have hknz : x.key.getD 0 0 ≠ 0 := (hpublen hp).2
      rw [show (if false = true then ([4, 136, 173, 228] : List Nat)
          else [4, 136, 178, 30]) = [4, 136, 178, 30] from rfl,
        show (if false = true then 0 :: x.key else x.key) = x.key from rfl]
      have hplen : ((([4, 136, 178, 30] ++ (([0] ++ List.replicate 4 0) ++
          List.replicate 4 0)) ++ x.chaincode) ++ x.key).length = 78 := by
        simp [hcc, hkl]
      have hpb : ∀ b ∈ (([4, 136, 178, 30] ++ (([0] ++ List.replicate 4 0) ++
          List.replicate 4 0)) ++ x.chaincode) ++ x.key, b < 256 := by
        intro b hb
        rcases List.mem_append.mp hb with hb | hb
        · rcases List.mem_append.mp hb with hb | hb
          · rcases List.mem_append.mp hb with hb | hb
            · fin_cases hb <;> omega
            · simp [List.mem_replicate] at hb
              omega
          · exact hccb b hb
        · exact hkb b hb
      rw [parse_payload H hH _ hplen hpb x.parent_pubkey]
      rw [parseCore_eval H [4, 136, 178, 30]
        (([0] ++ List.replicate 4 0) ++ List.replicate 4 0) x.chaincode
        x.key x.parent_pubkey (by decide) (by decide) hcc hkl]
      rw [e1, e2, e3]
      rw [List.getD_eq_getElem?_getD] at hknz
      simp [Xkey.make, hppn, hknz]
      exact Xkey.ext' _ _ rfl rfl hp.symm hr.symm hd0.symm hi0.symm hppn.symm
  | false =>
    obtain ⟨hdne, hppne⟩ := hnonroot hr
    obtain ⟨pk, hpk⟩ : ∃ pk, x.parent_pubkey = some pk := by
      cases hpp : x.parent_pubkey with
      | none => exact absurd hpp hppne
      | some pk => exact ⟨pk, rfl⟩
    rw [serialize_nonroot H x hr pk hpk hdep hidx, bind_ok_eval]
    have hfp4 : ((H.hash160 pk).take 4).length = 4 := by
      have h20 := (hH.2 pk).1
      simp [List.length_take, h20]
    have hml : (([x.depth] ++ (H.hash160 pk).take 4) ++ natToBytes 4 x.index).length = 9 := by
      simp [hfp4, natToBytes_length]
    have hassoc : ([x.depth] ++ (H.hash160 pk).take 4) ++ natToBytes 4 x.index =
        [x.depth] ++ ((H.hash160 pk).take 4 ++ natToBytes 4 x.index) := by
      simp
    have e1 : (([x.depth] ++ (H.hash160 pk).take 4) ++ natToBytes 4 x.index).getD 0 0 =
        x.depth := by
      rw [hassoc]
      rw [List.getD_append _ _ _ _ (by simp)]
      rfl
    have e2 : ((([x.depth] ++ (H.hash160 pk).take 4) ++ natToBytes 4 x.index).drop 1).take 4 =
        (H.hash160 pk).take 4 := by
      rw [hassoc]
      have hdr : (([x.depth] : List Nat) ++ ((H.hash160 pk).take 4 ++
          natToBytes 4 x.index)).drop 1 = (H.hash160 pk).take 4 ++ natToBytes 4 x.index := by
        simp
      rw [hdr, List.take_left' hfp4]
    have e3 : bytesToNat (((([x.depth] ++ (H.hash160 pk).take 4) ++
        natToBytes 4 x.index).drop 5).take 4) = x.index := by
      have hstep : (([x.depth] ++ (H.hash160 pk).take 4) ++ natToBytes 4 x.index).drop 5 =
          natToBytes 4 x.index := by
        have h : (([x.depth] ++ (H.hash160 pk).take 4) ++ natToBytes 4 x.index).drop
            (([x.depth] ++ (H.hash160 pk).take 4).length + 0) =
            (natToBytes 4 x.index).drop 0 := List.drop_append 0
        rw [show ([x.depth] ++ (H.hash160 pk).take 4).length = 5 by simp [hfp4]] at h
        simpa using h
      rw [hstep, List.take_of_length_le (by simp [natToBytes_length])]
      exact bytesToNat_natToBytes 4 x.index (by norm_num at hidx ⊢; omega)
    cases hp : x.private_key with
    | true =>
      have hkl : x.key.length = 32 := hprivlen hp
      rw [show (if true = true then ([4, 136, 173, 228] : List Nat)
          else [4, 136, 178, 30]) = [4, 136, 173, 228] from rfl,
        show (if true = true then 0 :: x.key else x.key) = 0 :: x.key from rfl]
      have hplen : ((([4, 136, 173, 228] ++ (([x.depth] ++ (H.hash160 pk).take 4) ++
          natToBytes 4 x.index)) ++ x.chaincode) ++ (0 :: x.key)).length = 78 := by
        simp [hcc, hkl, hfp4, natToBytes_length]
      have hpb : ∀ b ∈ (([4, 136, 173, 228] ++ (([x.depth] ++ (H.hash160 pk).take 4) ++
          natToBytes 4 x.index)) ++ x.chaincode) ++ (0 :: x.key), b < 256 := by
        intro b hb
        rcases List.mem_append.mp hb with hb | hb
        · rcases List.mem_append.mp hb with hb | hb
          · rcases List.mem_append.mp hb with hb | hb
            · fin_cases hb <;> omega
            · rcases List.mem_append.mp hb with hb | hb
              · rcases List.mem_append.mp hb with hb | hb
                · simp at hb
                  omega
                · exact (hH.2 pk).2 b (List.mem_of_mem_take hb)
              · exact natToBytes_bytes_lt 4 x.index b hb
          · exact hccb b hb
        · rcases List.mem_cons.mp hb with hb | hb
          · omega
          · exact hkb b hb
      rw [parse_payload H hH _ hplen hpb x.parent_pubkey]
      rw [parseCore_eval H [4, 136, 173, 228]
        (([x.depth] ++ (H.hash160 pk).take 4) ++ natToBytes 4 x.index) x.chaincode
        (0 :: x.key) x.parent_pubkey (by decide) hml hcc (by simp [hkl])]
      rw [e1, e2, e3]
      simp [Xkey.make, hdne, hpk]
      exact Xkey.ext' _ _ rfl rfl hp.symm hr.symm rfl rfl hpk.symm
    | false =>
      have hkl : x.key.length = 33 := (hpublen hp).1
      have hknz : x.key.getD 0 0 ≠ 0 := (hpublen hp).2
      rw [show (if false = true then ([4, 136, 173, 228] : List Nat)
          else [4, 136, 178, 30]) = [4, 136, 178, 30] from rfl,
        show (if false = true then 0 :: x.key else x.key) = x.key from rfl]
      have hplen : ((([4, 136, 178, 30] ++ (([x.depth] ++ (H.hash160 pk).take 4) ++
          natToBytes 4 x.index)) ++ x.chaincode) ++ x.key).length = 78 := by
        simp [hcc, hkl, hfp4, natToBytes_length]
      have hpb : ∀ b ∈ (([4, 136, 178, 30] ++ (([x.depth] ++ (H.hash160 pk).take 4) ++
          natToBytes 4 x.index)) ++ x.chaincode) ++ x.key, b < 256 := by
        intro b hb
        rcases List.mem_append.mp hb with hb | hb
        · rcases List.mem_append.mp hb with hb | hb
          · rcases List.mem_append.mp hb with hb | hb
            · fin_cases hb <;> omega
            · rcases List.mem_append.mp hb with hb | hb
              · rcases List.mem_append.mp hb with hb | hb
                · simp at hb
                  omega
                · exact (hH.2 pk).2 b (List.mem_of_mem_take hb)
              · exact natToBytes_bytes_lt 4 x.index b hb
          · exact hccb b hb
        · exact hkb b hb
      rw [parse_payload H hH _ hplen hpb x.parent_pubkey]
      rw [parseCore_eval H [4, 136, 178, 30]
        (([x.depth] ++ (H.hash160 pk).take 4) ++ natToBytes 4 x.index) x.chaincode
        x.key x.parent_pubkey (by decide) hml hcc hkl]
      rw [e1, e2, e3]
      rw [List.getD_eq_getElem?_getD] at hknz
      simp [Xkey.make, hdne, hpk, hknz]
      exact Xkey.ext' _ _ rfl rfl hp.symm hr.symm rfl rfl hpk.symm

lemma Ncurve_lt : Ncurve < 256 ^ 32 := by norm_num [Ncurve]

lemma throw_bind {ε α β : Type} (e : ε) (f : α → Except ε β) :
    (throw e : Except ε α) >>= f = Except.error e := rfl

lemma intToBytes32_mod (m : Nat) :
    intToBytes 32 (m % Ncurve) = .ok (natToBytes 32 (m % Ncurve)) := by
  have h : m % Ncurve < 256 ^ 32 :=
    lt_trans (Nat.mod_lt _ (by norm_num [Ncurve])) Ncurve_lt
  unfold intToBytes
  rw [if_pos h]

lemma derive_pub_hard (H : HashFns) (E : ECGroup) (x : Xkey)
    (hp : x.private_key = false) (i : Nat) (hi : 2 ^ 31 ≤ i) :
    x.derive_child_seed H E i = .error .hardened := by
  have hi' : 2147483648 ≤ i := by norm_num at hi; exact hi
  simp [Xkey.derive_child_seed, hp, hi', throw_bind]

lemma derive_pub_soft (H : HashFns) (E : ECGroup) (x : Xkey)
    (hp : x.private_key = false) (i : Nat) (hi : i < 2 ^ 31) :
    x.derive_child_seed H E i = .ok
      ⟨E.sec (E.ptAdd (E.ptParse x.key) (E.smulG (bytesToNat
          ((H.hmac_sha512 x.chaincode (x.key ++ natToBytes 4 i)).take 32)))),
        (H.hmac_sha512 x.chaincode (x.key ++ natToBytes 4 i)).drop 32,
        false, false, if x.root = true then 1 else x.depth + 1, i, some x.key⟩ := by
  have hi' : ¬2147483648 ≤ i := by norm_num at hi ⊢; omega
  have h4 : intToBytes 4 i = .ok (natToBytes 4 i) := by
    unfold intToBytes
    rw [if_pos (show i < 256 ^ 4 by norm_num at hi ⊢; omega)]
  cases hr : x.root with
  | true => simp [Xkey.derive_child_seed, hp, hi', h4, ok_bind, Xkey.make, hr]
  | false => simp [Xkey.derive_child_seed, hp, hi', h4, ok_bind, Xkey.make, hr]

lemma derive_priv_eval (H : HashFns) (E : ECGroup) (x : Xkey)
    (hp : x.private_key = true) (i : Nat) (hi : i < 2 ^ 32) :
    x.derive_child_seed H E i = .ok
      ⟨natToBytes 32 ((bytesToNat x.key + bytesToNat
          ((H.hmac_sha512 x.chaincode
            (if 2 ^ 31 ≤ i then ([0] ++ x.key) ++ natToBytes 4 i
             else H.get_pubkey_sec x.key ++ natToBytes 4 i)).take 32)) % Ncurve),
        (H.hmac_sha512 x.chaincode
            (if 2 ^ 31 ≤ i then ([0] ++ x.key) ++ natToBytes 4 i
             else H.get_pubkey_sec x.key ++ natToBytes 4 i)).drop 32,
        true, false, if x.root = true then 1 else x.depth + 1, i,
        some (H.get_pubkey_sec x.key)⟩ := by
  have h4 : intToBytes 4 i = .ok (natToBytes 4 i) := by
    unfold intToBytes
    rw [if_pos (show i < 256 ^ 4 by norm_num at hi ⊢; omega)]
  by_cases hh : 2 ^ 31 ≤ i
  · rw [if_pos hh]
    have hh' : 2147483648 ≤ i := by norm_num at hh; exact hh
    cases hr : x.root with
    | true =>
      simp [Xkey.derive_child_seed, hp, hh', h4, ok_bind, intToBytes32_mod,
        Xkey.make, hr]
    | false =>
      simp [Xkey.derive_child_seed, hp, hh', h4, ok_bind, intToBytes32_mod,
        Xkey.make, hr]
  · rw [if_neg hh]
    have hh' : ¬2147483648 ≤ i := by norm_num at hh ⊢; exact hh
    cases hr : x.root with
    | true =>
      simp [Xkey.derive_child_seed, hp, hh', h4, ok_bind, intToBytes32_mod,
        Xkey.make, hr]
    | false =>
      simp [Xkey.derive_child_seed, hp, hh', h4, ok_bind, intToBytes32_mod,
        Xkey.make, hr]

/-- C3: a public (non-private) node rejects every hardened index `i ≥ 2^31`
with the hardened-derivation error, and never raises that error for
`i < 2^31`. -/
theorem c3_public_hardened_rejected (H : HashFns) (E : ECGroup) (x : Xkey)
    (hpub : x.private_key = false) (i : Nat) :
    (2 ^ 31 ≤ i → x.derive_child_seed H E i = .error .hardened) ∧
    (i < 2 ^ 31 → x.derive_child_seed H E i ≠ .error .hardened) := by
  constructor
  · intro hi
    exact derive_pub_hard H E x hpub i hi
  · intro hi
    rw [derive_pub_soft H E x hpub i hi]
    simp

/-- C4: for a private parent and any 32-bit index, the child key is the
32-byte big-endian encoding of `(parent_scalar + left_int) mod curve_order`
and the child chain code is the right HMAC half, with no special case for a
zero scalar or an oversized left half. -/
theorem c4_private_child_combination (H : HashFns) (E : ECGroup) (x : Xkey)
    (hp : x.private_key = true) (i : Nat) (hi : i < 2 ^ 32) :
    ∃ c, x.derive_child_seed H E i = .ok c ∧
      c.key = natToBytes 32 ((bytesToNat x.key + bytesToNat
        ((H.hmac_sha512 x.chaincode
          (if 2 ^ 31 ≤ i then ([0] ++ x.key) ++ natToBytes 4 i
           else H.get_pubkey_sec x.key ++ natToBytes 4 i)).take 32)) % Ncurve) ∧
      c.chaincode = (H.hmac_sha512 x.chaincode
          (if 2 ^ 31 ≤ i then ([0] ++ x.key) ++ natToBytes 4 i
           else H.get_pubkey_sec x.key ++ natToBytes 4 i)).drop 32 :=
  ⟨_, derive_priv_eval H E x hp i hi, rfl, rfl⟩

/-- C8: `derive_path` folds `derive_child_seed` left to right over the steps,
adding `2^31` to hardened indices, and the empty path returns the node
unchanged. -/
theorem c8_derive_path_fold (H : HashFns) (E : ECGroup) (x : Xkey) :
    x.derive_path H E [] = .ok x ∧
    ∀ steps : List (Nat × Bool),
      x.derive_path H E steps = steps.foldlM
        (fun s st => s.derive_child_seed H E
          (if st.2 then st.1 + 2 ^ 31 else st.1)) x := by
  refine ⟨rfl, ?_⟩
  intro steps
  induction steps generalizing x with
  | nil => rfl
  | cons st rest ih =>
    rw [List.foldlM_cons]
    show (do
      let child ← x.derive_child_seed H E (if st.2 then st.1 + 2 ^ 31 else st.1)
      child.derive_path H E rest) = _
    cases hc : x.derive_child_seed H E (if st.2 then st.1 + 2 ^ 31 else st.1) with
    | error e => simp [hc, error_bind]
    | ok c =>
      simp only [hc, ok_bind]
      exact ih c

/-- C5 counterexample: a root node with nonzero depth is constructed without
any error, contradicting the claim that such a construction fails. -/
theorem c5_counterexample :
    Xkey.make [1] [2] true true 7 0 none =
      .ok ⟨[1], [2], true, true, 7, 0, none⟩ := by decide

/-- C5 amended: construction fails with an assertion error for every non-root
node without a parent public key and for every non-root node with zero depth
(producing no node), while a root node is constructed without any check on
its depth, index or parent key. -/
theorem c5_amended_construction_asserts :
    (∀ (k cc : List Nat) (pv : Bool) (d i : Nat),
      Xkey.make k cc pv false d i none = .error .assertionError) ∧
    (∀ (k cc : List Nat) (pv : Bool) (i : Nat) (pp : Option (List Nat)),
      Xkey.make k cc pv false 0 i pp = .error .assertionError) ∧
    (∀ (k cc : List Nat) (pv : Bool) (d i : Nat) (pp : Option (List Nat)),
      Xkey.make k cc pv true d i pp = .ok ⟨k, cc, pv, true, d, i, pp⟩) := by
  refine ⟨?_, ?_, ?_⟩
  · intro k cc pv d i
    by_cases hd : d = 0 <;> simp [Xkey.make, hd]
  · intro k cc pv i pp
    simp [Xkey.make]
  · intro k cc pv d i pp
    simp [Xkey.make]

/-- Contract the repository relies on for the external `ecc` library:
`S256Point.parse` inverts SEC serialization, scalar multiples of `G` add like
their scalars, scalars act modulo the group order, and `get_pubkey_sec`
serializes the scalar multiple of `G`. -/

lemma derive_pubkey_eval (H : HashFns) (x : Xkey) (hp : x.private_key = true)
    (hwf : x.root = true ∨ (x.depth ≠ 0 ∧ x.parent_pubkey ≠ none)) :
    x.derive_pubkey H = .ok ⟨H.get_pubkey_sec x.key, x.chaincode, false,
      x.root, x.depth, x.index, x.parent_pubkey⟩ := by
  rcases hwf with hr | ⟨hd, hpp⟩
  · simp [Xkey.derive_pubkey, hp, Xkey.make, hr]
  · obtain ⟨pk, hpk⟩ : ∃ pk, x.parent_pubkey = some pk := by
      cases hpp' : x.parent_pubkey with
      | none => exact absurd hpp' hpp
      | some pk => exact ⟨pk, rfl⟩
    cases hr : x.root with
    | true => simp [Xkey.derive_pubkey, hp, Xkey.make, hr]
    | false => simp [Xkey.derive_pubkey, hp, Xkey.make, hr, hd, hpk]

lemma derive_child_then_pub (H : HashFns) (E : ECGroup) (x : Xkey)
    (hp : x.private_key = true) (i : Nat) (hi : i < 2 ^ 31) :
    (x.derive_child_seed H E i).bind (fun c => c.derive_pubkey H) = .ok
      ⟨H.get_pubkey_sec (natToBytes 32 ((bytesToNat x.key + bytesToNat
          ((H.hmac_sha512 x.chaincode
            (H.get_pubkey_sec x.key ++ natToBytes 4 i)).take 32)) % Ncurve)),
        (H.hmac_sha512 x.chaincode
          (H.get_pubkey_sec x.key ++ natToBytes 4 i)).drop 32,
        false, false, if x.root = true then 1 else x.depth + 1, i,
        some (H.get_pubkey_sec x.key)⟩ := by
  have hi32 : i < 2 ^ 32 := by norm_num at hi ⊢; omega
  have hnh : ¬2 ^ 31 ≤ i := by omega
  rw [derive_priv_eval H E x hp i hi32, if_neg hnh, bind_ok_eval]
  exact derive_pubkey_eval H _ rfl
    (Or.inr ⟨by cases hx : x.root <;> simp [hx], by simp⟩)

/-- C2: on a private node `p` with a non-hardened index `i < 2^31`, projecting
the derived child to public equals deriving the child of the public
projection, field by field. -/
theorem c2_public_projection_commutes (H : HashFns) (E : ECGroup)
    (hE : E.lawful H) (p : Xkey) (hp : p.private_key = true)
    (hwf : p.root = true ∨ (p.depth ≠ 0 ∧ p.parent_pubkey ≠ none))
    (i : Nat) (hi : i < 2 ^ 31) :
    (p.derive_child_seed H E i).bind (fun c => c.derive_pubkey H) =
      (p.derive_pubkey H).bind (fun q => q.derive_child_seed H E i) := by
  obtain ⟨hparse, hadd, hmod, hpub⟩ := hE
  rw [derive_child_then_pub H E p hp i hi]
  rw [derive_pubkey_eval H p hp hwf, bind_ok_eval]
  rw [derive_pub_soft H E _ rfl i hi]
  have hbound : (bytesToNat p.key + bytesToNat
      ((H.hmac_sha512 p.chaincode
        (H.get_pubkey_sec p.key ++ natToBytes 4 i)).take 32)) % Ncurve <
      256 ^ 32 :=
    lt_trans (Nat.mod_lt _ (by norm_num [Ncurve])) Ncurve_lt
  have hkey : H.get_pubkey_sec (natToBytes 32 ((bytesToNat p.key + bytesToNat
      ((H.hmac_sha512 p.chaincode
        (H.get_pubkey_sec p.key ++ natToBytes 4 i)).take 32)) % Ncurve)) =
      E.sec (E.ptAdd (E.ptParse (H.get_pubkey_sec p.key))
        (E.smulG (bytesToNat ((H.hmac_sha512 p.chaincode
          (H.get_pubkey_sec p.key ++ natToBytes 4 i)).take 32)))) := by
    rw [hpub]
    rw [bytesToNat_natToBytes 32 _ hbound]
    rw [hmod, hpub, hparse, hadd]
  exact congrArg Except.ok (Xkey.ext' _ _ hkey rfl rfl rfl rfl rfl rfl)

/-- C7: parsing Base58-decodes to 82 bytes and, whenever the trailing 4 bytes
differ from the first 4 bytes of double-SHA-256 of the 78-byte payload, fails
with the checksum-mismatch error before any other field of the payload is
interpreted (no hypothesis on version, depth, fingerprint, index or key is
needed). -/
theorem c7_checksum_before_fields (H : HashFns) :
    (∀ (s : List Char) (d : List Nat), decode_base58 s = .ok d →
      d.length = 82) ∧
    (∀ (s : List Char) (d : List Nat) (pp : Option (List Nat)),
      decode_base58 s = .ok d →
      d.drop (d.length - 4) ≠ (H.hash256 (d.take (d.length - 4))).take 4 →
      Xkey.parse_from_bip32 H s pp = .error .checksumMismatch) := by
  constructor
  · intro s d hd
    unfold decode_base58 at hd
    cases hnum : decodeNum 0 s with
    | error e =>
      rw [hnum] at hd
      exact absurd hd (by simp [error_bind])
    | ok num =>
      rw [hnum] at hd
      simp only [ok_bind] at hd
      unfold intToBytes at hd
      split at hd
      · simp only [Except.ok.injEq] at hd
        rw [← hd]
        exact natToBytes_length 82 num
      · exact absurd hd (by simp)
  · intro s d pp hd hne
    rw [parse_unfold, hd]
    simp only [ok_bind]
    simp [hne, throw_bind]

/-- C9: parsing an encoded key whose payload is not detected as root while
supplying no parent public key always fails with some error, and that error
is never the fingerprint-mismatch error. -/
theorem c9_nonroot_parse_without_parent (H : HashFns) (s : List Char)
    (d : List Nat) (hd : decode_base58 s = .ok d)
    (hnr : ¬((d.take (d.length - 4)).getD 4 0 = 0 ∧
      ((d.take (d.length - 4)).drop 5).take 4 = List.replicate 4 0 ∧
      bytesToNat (((d.take (d.length - 4)).drop 9).take 4) = 0)) :
    ∃ e, Xkey.parse_from_bip32 H s none = .error e ∧
      e ≠ .fingerprintMismatch := by
  rw [parse_unfold, hd]
  simp only [ok_bind]
  by_cases hck : d.drop (d.length - 4) ≠ (H.hash256 (d.take (d.length - 4))).take 4
  · refine ⟨.checksumMismatch, ?_, by simp⟩
    simp [hck, throw_bind]
  · push_neg at hck
    by_cases hv1 : (d.take (d.length - 4)).take 4 = [4, 136, 173, 228]
    · refine ⟨.typeError, ?_, by simp⟩
      simp [parseCore, hck, hv1, hnr, throw_bind]
      intro h1 h2 h3
      exact absurd ⟨by simpa using h1, by simpa using h2, h3⟩ hnr
    · by_cases hv2 : (d.take (d.length - 4)).take 4 = [4, 136, 178, 30]
      · refine ⟨.typeError, ?_, by simp⟩
        simp [parseCore, hck, hv1, hv2, hnr, throw_bind]
        intro h1 h2 h3
        exact absurd ⟨by simpa using h1, by simpa using h2, h3⟩ hnr
      · refine ⟨.unsupportedFormat, ?_, by simp⟩
        simp [parseCore, hck, hv1, hv2, throw_bind]

/-- C6 amended: an encoded key whose payload has zero depth, an all-zero
fingerprint and zero index is treated as a root node for any supplied
`parent_pubkey` (no fingerprint check is performed), but the supplied
`parent_pubkey` is stored on the resulting node, so the result is not
independent of it. -/
theorem c6_root_detection_stores_parent (H : HashFns) (s : List Char)
    (d : List Nat) (pp : Option (List Nat)) (pv : Bool)
    (hdec : decode_base58 s = .ok d)
    (hck : d.drop (d.length - 4) = (H.hash256 (d.take (d.length - 4))).take 4)
    (hver : (d.take (d.length - 4)).take 4 =
      (if pv then [4, 136, 173, 228] else [4, 136, 178, 30]))
    (hdep : (d.take (d.length - 4)).getD 4 0 = 0)
    (hfp : ((d.take (d.length - 4)).drop 5).take 4 = List.replicate 4 0)
    (hidx : bytesToNat (((d.take (d.length - 4)).drop 9).take 4) = 0) :
    Xkey.parse_from_bip32 H s pp = .ok
      ⟨(if (((d.take (d.length - 4)).drop 45).take 33).getD 0 0 = 0
          then (((d.take (d.length - 4)).drop 45).take 33).drop 1
          else ((d.take (d.length - 4)).drop 45).take 33),
        ((d.take (d.length - 4)).drop 13).take 32, pv, true, 0, 0, pp⟩ := by
  rw [parse_unfold, hdec]
  simp only [ok_bind]
  rw [if_neg (by simp [hck])]
  cases pv with
  | true =>
    simp at hver hdep hfp
    simp [parseCore, hver, hdep, hfp, hidx, Xkey.make]
  | false =>
    simp at hver hdep hfp
    simp [parseCore, hver, hdep, hfp, hidx, Xkey.make]

/-- C10: serializing a root node emits an all-zero depth byte, fingerprint
and index regardless of the values stored in the node (the output does not
depend on `depth`, `index` or `parent_pubkey`), while a non-root node's
stored depth, parent fingerprint and index are written out. -/
theorem c10_root_serialization_ignores_fields (H : HashFns) (x : Xkey) :
    (x.root = true →
      (∀ (d i : Nat) (pp : Option (List Nat)),
        x.serialize H =
          Xkey.serialize H ⟨x.key, x.chaincode, x.private_key, true, d, i, pp⟩) ∧
      x.serialize H = .ok (encode_base58_checksum H
        ((((if x.private_key then [4, 136, 173, 228] else [4, 136, 178, 30]) ++
          (([0] ++ List.replicate 4 0) ++ List.replicate 4 0)) ++ x.chaincode) ++
          (if x.private_key then 0 :: x.key else x.key)))) ∧
    (x.root = false → ∀ pk, x.parent_pubkey = some pk → x.depth < 256 →
      x.index < 2 ^ 32 →
      x.serialize H = .ok (encode_base58_checksum H
        ((((if x.private_key then [4, 136, 173, 228] else [4, 136, 178, 30]) ++
          (([x.depth] ++ (H.hash160 pk).take 4) ++ natToBytes 4 x.index)) ++
          x.chaincode) ++
          (if x.private_key then 0 :: x.key else x.key)))) := by
  constructor
  · intro hr
    constructor
    · intro d i pp
      rw [serialize_root H x hr,
        serialize_root H ⟨x.key, x.chaincode, x.private_key, true, d, i, pp⟩ rfl]
    · exact serialize_root H x hr
  · intro hr pk hpk hd hi
    exact serialize_nonroot H x hr pk hpk hd hi

lemma Ncurve_pos : 0 < Ncurve := by norm_num [Ncurve]

/-- A concrete model of the secp256k1 group contract: points are residues
modulo the group order, the base-point multiples are the residues themselves,
and SEC serialization is the 33-byte big-endian value. -/

lemma testHash_contract : testHash.hashContract := by
  refine ⟨fun b => ⟨by simp [testHash], fun y hy => ?_⟩,
    fun b => ⟨by simp [testHash], fun y hy => ?_⟩⟩
  · simp [testHash, List.mem_replicate] at hy
    omega
  · simp [testHash, List.mem_replicate] at hy
    omega

lemma finEC_lawful : finEC.lawful testHash := by
  refine ⟨?_, ?_, ?_, ?_⟩
  · intro p
    have hval : p.val < 256 ^ 33 := by
      have h1 : p.val < Ncurve := p.isLt
      have h2 : Ncurve < 256 ^ 33 := by norm_num [Ncurve]
      exact lt_trans h1 h2
    refine Fin.ext ?_
    show bytesToNat (natToBytes 33 p.val) % Ncurve = p.val
    exact (congrArg (· % Ncurve) (bytesToNat_natToBytes 33 p.val hval)).trans
      (Nat.mod_eq_of_lt p.isLt)
  · intro a b
    refine Fin.ext ?_
    show (a % Ncurve + b % Ncurve) % Ncurve = (a + b) % Ncurve
    exact (Nat.add_mod a b Ncurve).symm
  · intro a
    refine Fin.ext ?_
    show a % Ncurve % Ncurve = a % Ncurve
    exact Nat.mod_mod_of_dvd a dvd_rfl
  · intro bs
    rfl

/-- C6 counterexample: parsing the same root-form encoded key with two
different `parent_pubkey` arguments yields two different nodes, so the parse
result is not independent of the supplied parent public key. -/
theorem c6_counterexample :
    Xkey.parse_from_bip32 testHash
        (encode_base58_checksum testHash rootPayload) (some [1, 2, 3]) ≠
      Xkey.parse_from_bip32 testHash
        (encode_base58_checksum testHash rootPayload) none := by
  rw [parse_payload testHash testHash_contract rootPayload (by decide)
      (by decide) (some [1, 2, 3]),
    parse_payload testHash testHash_contract rootPayload (by decide)
      (by decide) none]
  decide

lemma sampleRoot_valid : sampleRoot.Valid := by
  unfold Xkey.Valid
  decide

theorem c1_witness :
    (sampleRoot.serialize testHash).bind
      (fun s => Xkey.parse_from_bip32 testHash s sampleRoot.parent_pubkey) =
      .ok sampleRoot :=
  c1_parse_serialize_inverse testHash testHash_contract sampleRoot
    sampleRoot_valid

theorem c2_witness :
    (sampleRoot.derive_child_seed testHash finEC 5).bind
        (fun c => c.derive_pubkey testHash) =
      (sampleRoot.derive_pubkey testHash).bind
        (fun q => q.derive_child_seed testHash finEC 5) :=
  c2_public_projection_commutes testHash finEC finEC_lawful sampleRoot rfl
    (Or.inl rfl) 5 (by norm_num)

theorem c3_witness :
    samplePub.derive_child_seed testHash finEC (2 ^ 31) = .error .hardened ∧
    samplePub.derive_child_seed testHash finEC 5 ≠ .error .hardened :=
  ⟨(c3_public_hardened_rejected testHash finEC samplePub rfl (2 ^ 31)).1
      (le_refl _),
   (c3_public_hardened_rejected testHash finEC samplePub rfl 5).2 (by norm_num)⟩

theorem c4_witness :
    ∃ c, sampleRoot.derive_child_seed testHash finEC 5 = .ok c ∧
      c.key = natToBytes 32 ((bytesToNat sampleRoot.key + bytesToNat
        ((testHash.hmac_sha512 sampleRoot.chaincode
          (if 2 ^ 31 ≤ 5 then ([0] ++ sampleRoot.key) ++ natToBytes 4 5
           else testHash.get_pubkey_sec sampleRoot.key ++
             natToBytes 4 5)).take 32)) % Ncurve) ∧
      c.chaincode = (testHash.hmac_sha512 sampleRoot.chaincode
          (if 2 ^ 31 ≤ 5 then ([0] ++ sampleRoot.key) ++ natToBytes 4 5
           else testHash.get_pubkey_sec sampleRoot.key ++
             natToBytes 4 5)).drop 32 :=
  c4_private_child_combination testHash finEC sampleRoot rfl 5 (by norm_num)

theorem c6_witness :
    Xkey.parse_from_bip32 testHash (encode_base58_checksum testHash rootPayload)
      (some [1, 2, 3]) = .ok
      ⟨List.replicate 32 3, List.replicate 32 11, true, true, 0, 0,
        some [1, 2, 3]⟩ :=
  c6_root_detection_stores_parent testHash _ _ (some [1, 2, 3]) true
    (decode_encode_checksum testHash testHash_contract rootPayload (by decide)
      (by decide))
    (by decide) (by decide) (by decide) (by decide) (by decide)

theorem c7_witness :
    (List.replicate 82 0).length = 82 ∧
    Xkey.parse_from_bip32 testHash (encode_base58 (List.replicate 82 0)) none =
      .error .checksumMismatch :=
  ⟨(c7_checksum_before_fields testHash).1 (encode_base58 (List.replicate 82 0))
      (List.replicate 82 0) (by decide),
   (c7_checksum_before_fields testHash).2 (encode_base58 (List.replicate 82 0))
      (List.replicate 82 0) none (by decide) (by decide)⟩

theorem c9_witness :
    ∃ e, Xkey.parse_from_bip32 testHash
        (encode_base58_checksum testHash childPayload) none = .error e ∧
      e ≠ .fingerprintMismatch :=
  c9_nonroot_parse_without_parent testHash _ _
    (decode_encode_checksum testHash testHash_contract childPayload (by decide)
      (by decide))
    (by decide)

theorem c10_witness :
    sampleRoot.serialize testHash =
      Xkey.serialize testHash ⟨sampleRoot.key, sampleRoot.chaincode,
        sampleRoot.private_key, true, 55, 66, some [9]⟩ ∧
    sampleChild.serialize testHash = .ok (encode_base58_checksum testHash
      ((((if sampleChild.private_key then [4, 136, 173, 228]
          else [4, 136, 178, 30]) ++
        (([sampleChild.depth] ++ (testHash.hash160 [2]).take 4) ++
          natToBytes 4 sampleChild.index)) ++ sampleChild.chaincode) ++
        (if sampleChild.private_key then 0 :: sampleChild.key
         else sampleChild.key))) :=
  ⟨((c10_root_serialization_ignores_fields testHash sampleRoot).1 rfl).1 55 66
      (some [9]),
   (c10_root_serialization_ignores_fields testHash sampleChild).2 rfl [2] rfl
      (by decide) (by decide)⟩
